import Mathlib

/-!
# Verification of the grid-machine cellular-automaton engine

A shallow embedding of `src/ca.rs` from the `grid-machine` crate, together
with theorems settling the specification's claims about it.

Machine-integer conventions of the embedding:
* Rust `i32` values are modelled as `Int` together with explicit
  two's-complement wrapping (`wrap32`) at every arithmetic operation and cast,
  matching the wrapping semantics of the compiled code.
* Rust `usize` values are modelled as `Nat`; the cast `i32 as usize`
  sign-extends to 64 bits (`usizeOfI32`), and `usize as i32` truncates to the
  low 32 bits reinterpreted as signed (`i32OfUsize`).
* `Vec<C>` is modelled as `List C`; indexed reads use `List.getD` with the
  `Default` value of the cell type (the Rust trait bound `C: Default`,
  modelled as `Inhabited C`), and indexed writes use `List.set`.  All claims
  proved below only exercise in-bounds indices, where these coincide with
  the panicking Rust accesses.
* A Rust function that can panic on reachable input is modelled with an
  outer `Option` (`none` = abort), as in `Neighborhood.next` below, whose
  `self.cell_coords.unwrap()` aborts when no cell has been initialized.
* Tuple fields translate positionally: the Rust field `.0` is Lean's `.1`
  and Rust's `.1` is Lean's `.2`.
-/

namespace GridMachine

/-- Interpretation of an integer as a 32-bit two's-complement value:
the unique representative of `z` modulo `2^32` lying in `[-2^31, 2^31)`. -/
def wrap32 (z : Int) : Int := (z + 2 ^ 31) % 2 ^ 32 - 2 ^ 31

/-- The Rust cast `as usize` applied to an `i32` value: sign-extension to
64 bits, i.e. the representative of `z` modulo `2^64` in `[0, 2^64)`. -/
def usizeOfI32 (z : Int) : Nat := (z % 2 ^ 64).toNat

/-- The Rust cast `as i32` applied to a `usize` value: truncation to the low
32 bits, reinterpreted as a signed value. -/
def i32OfUsize (n : Nat) : Int := wrap32 (n : Int)

/-- `pub fn coord_to_idx(width: i32, x: i32, y: i32) -> usize {
      (y * width + x) as usize }` -/
def coord_to_idx (width x y : Int) : Nat := usizeOfI32 (wrap32 (y * width + x))

/-- `pub fn idx_to_coord(width: usize, idx: usize) -> (i32, i32) {
      let x = idx % width; let y = idx / width; (x as i32, y as i32) }` -/
def idx_to_coord (width idx : Nat) : Int × Int :=
  (i32OfUsize (idx % width), i32OfUsize (idx / width))

/-- `static VON_NEUMAN_NEIGHBORHOOD: &'static [(i32, i32); 4]
      = &[(-1, 0), (0, -1), (1, 0), (0, 1)];` -/
def VON_NEUMAN_NEIGHBORHOOD : List (Int × Int) := [(-1, 0), (0, -1), (1, 0), (0, 1)]

/-- `pub fn von_neuman(x: i32, y: i32, width: i32, height: i32) -> Vec<(i32, i32)>`:
maps each offset `(a, b)` to `(x + a, y + b)` (i32 addition) and keeps the
results inside `[0,width) × [0,height)`. -/
def von_neuman (x y width height : Int) : List (Int × Int) :=
  (VON_NEUMAN_NEIGHBORHOOD.map (fun ab => (wrap32 (x + ab.1), wrap32 (y + ab.2)))).filter
    (fun ab => decide (0 ≤ ab.1) && decide (ab.1 < width) &&
               decide (0 ≤ ab.2) && decide (ab.2 < height))

/-!
## The simulation engine

`Simulation<C>` owns the grid dimensions, the transition rule (a boxed
`FnMut(&mut C, &[&C])`, modelled as a function threading its captured
mutable closure state `S`), the neighborhood rule, and the two cell
buffers `state` and `buffer`.
-/

structure Simulation (C : Type) (S : Type) where
  width : Int
  height : Int
  transS : S
  transition : S → C → List C → C × S
  neighborhood : Int → Int → Int → Int → List (Int × Int)
  state : List C
  buffer : List C

namespace Simulation

variable {C S : Type} [Inhabited C]

/-- `Simulation::new`: `capacity = (width * height) as usize`; both buffers
are filled with `capacity` default cells. -/
def new (width height : Int) (trans_fn : S → C → List C → C × S) (s0 : S)
    (neighbor_fn : Int → Int → Int → Int → List (Int × Int)) : Simulation C S :=
  let capacity : Nat := usizeOfI32 (wrap32 (width * height))
  { width := width
    height := height
    transS := s0
    transition := trans_fn
    neighborhood := neighbor_fn
    state := List.replicate capacity default
    buffer := List.replicate capacity default }

/-- `Simulation::from_cells`: both buffers are seeded with the supplied cell
sequence (`state: cells.to_vec(), buffer: cells`); its length is not
validated against `width * height` and construction cannot fail. -/
def from_cells (width height : Int) (trans_fn : S → C → List C → C × S) (s0 : S)
    (neighbor_fn : Int → Int → Int → Int → List (Int × Int)) (cells : List C) :
    Simulation C S :=
  { width := width
    height := height
    transS := s0
    transition := trans_fn
    neighborhood := neighbor_fn
    state := cells
    buffer := cells }

/-- The `neighbors` vector built by `step` for the cell at `p`: the
neighborhood rule's coordinates resolved against the frozen `state` buffer
(`state_ref[coord_to_idx(w, *i, *j)]`). -/
def neighborCells (sim : Simulation C S) (p : Int × Int) : List C :=
  (sim.neighborhood p.1 p.2 sim.width sim.height).map
    (fun ij => sim.state.getD (coord_to_idx sim.width ij.1 ij.2) default)

/-- The body of `step`'s inner loop at cell `(x, y)`: gather the neighbor
cells from the frozen `state` buffer and let the transition rule rewrite the
cell at index `coord_to_idx width x y` of the write buffer (threading the
transition closure's mutable state). -/
def stepCell (sim : Simulation C S) (acc : List C × S) (x y : Int) : List C × S :=
  let neighbors : List C := sim.neighborCells (x, y)
  let idx := coord_to_idx sim.width x y
  let r := sim.transition acc.2 (acc.1.getD idx default) neighbors
  (acc.1.set idx r.1, r.2)

/-- `Simulation::step`: the row-major double loop (`y` outer, `x` inner)
over all grid positions, followed by `mem::swap(&mut self.state, &mut
self.buffer)`. -/
def step (sim : Simulation C S) : Simulation C S :=
  let r := (List.range sim.height.toNat).foldl
    (fun acc (yn : Nat) => (List.range sim.width.toNat).foldl
      (fun acc2 (xn : Nat) => sim.stepCell acc2 (xn : Int) (yn : Int)) acc)
    (sim.buffer, sim.transS)
  { sim with state := r.1, buffer := sim.state, transS := r.2 }

/-- `Simulation::step_until`: `for _ in 0..step_count { self.step(); }`. -/
def step_until (sim : Simulation C S) (step_count : Int) : Simulation C S :=
  (List.range step_count.toNat).foldl (fun s _ => step s) sim

/-- `Simulation::cells`: a view of the current state buffer. -/
def cells (sim : Simulation C S) : List C := sim.state

end Simulation

/-- The sequence of grid positions visited by `step`'s double loop, in
row-major order (proof infrastructure, not part of the source). -/
def gridCoords (w h : Int) : List (Int × Int) :=
  (List.range h.toNat).flatMap
    (fun yn => (List.range w.toNat).map (fun xn : Nat => ((xn : Int), (yn : Int))))

/-!
## The (dead-code) neighborhood iterator

`struct Neighborhood` from `src/ca.rs` with its `Iterator::next`
implementation.  `next(&mut self)` is modelled as a function returning the
yielded item together with the (in fact unmodified) iterator state; the
outer `Option` models the `unwrap` panic when `cell_coords` is `None`.
-/

structure Neighborhood where
  count : Nat
  bounds : List (Int × Int)
  ca_bounds : Int × Int
  cell_coords : Option (Int × Int)

namespace Neighborhood

/-- `Neighborhood::new(bounds, ca_bounds)`. -/
def new (bounds : List (Int × Int)) (ca_bounds : Int × Int) : Neighborhood :=
  { count := 0, bounds := bounds, ca_bounds := ca_bounds, cell_coords := none }

/-- `Neighborhood::init_with_cell`. -/
def init_with_cell (nb : Neighborhood) (cell : Int × Int) : Neighborhood :=
  { nb with cell_coords := some cell }

/-- `Neighborhood::reset`. -/
def reset (nb : Neighborhood) : Neighborhood := { nb with count := 0 }

/-- The bounds condition `idx < 0 || idx > self.ca_bounds.0` from
`Neighborhood::next` (`idx` has the unsigned type `usize`; `ca_bounds.0`
in Rust — here `ca_bounds.1` — holds the first grid bound, the width). -/
def boundsTest (nb : Neighborhood) (idx : Nat) : Bool :=
  decide (idx < 0) || decide ((idx : Int) > nb.ca_bounds.1)

/-- `<Neighborhood as Iterator>::next`: if `count` has reached
`bounds.len()`, yield `None`; otherwise unwrap the cell, compute the (then
unused) neighbor coordinate `bounds[count] + cell`, compute
`idx = coord_to_idx(ca_bounds.0, cell.0, cell.1)` from the cell's own
coordinates, and yield it unless the bounds condition rejects it.
No field of `self` is ever modified. -/
def next (nb : Neighborhood) : Option (Option Nat × Neighborhood) :=
  if nb.count = nb.bounds.length then some (none, nb)
  else
    nb.cell_coords.map (fun cell =>
      let _neigh := (wrap32 ((nb.bounds.getD nb.count (0, 0)).1 + cell.1),
                     wrap32 ((nb.bounds.getD nb.count (0, 0)).2 + cell.2))
      let idx := coord_to_idx nb.ca_bounds.1 cell.1 cell.2
      (if nb.boundsTest idx then none else some idx, nb))

/-- `k` successive calls of `next`, threading the iterator state
(`none` once any call aborts). -/
def iter (nb : Neighborhood) : Nat → Option Neighborhood
  | 0 => some nb
  | k + 1 => (nb.iter k).bind (fun nb2 => nb2.next.map Prod.snd)

end Neighborhood

/-! ## Concrete instances used by the witnesses -/

/-- A 2×2 integer simulation with an identity transition rule. -/
def simEx : Simulation Int Unit :=
  Simulation.from_cells 2 2 (fun s c _ns => (c, s)) () von_neuman [10, 20, 30, 40]

/-- A 1×1 integer simulation over the built-in four-connected neighborhood. -/
def sim1x1 : Simulation Int Unit :=
  Simulation.from_cells 1 1 (fun s c _ns => (c, s)) () von_neuman [7]

/-- A 2×2 simulation whose transition copies the first neighbor verbatim and
whose neighborhood rule designates cell `(0, 0)` as everyone's neighbor. -/
def simCopy : Simulation Int Unit :=
  Simulation.from_cells 2 2 (fun s c ns => (ns.headD c, s)) ()
    (fun _x _y _w _h => [(0, 0)]) [10, 20, 30, 40]

/-- The 3×3 initial cell sequence in which each cell stores its own
`(x, y)` coordinates. -/
def cellsOwnCoords3 : List (Int × Int) :=
  (List.range 9).map (fun idx => idx_to_coord 3 idx)

/-- The 3×3 simulation of the spec's scenario: cells initialized to their own
coordinates, four-connected neighborhood, identity transition. -/
def sim3x3 : Simulation (Int × Int) Unit :=
  Simulation.from_cells 3 3 (fun s c _ns => (c, s)) () von_neuman cellsOwnCoords3

/-- A neighborhood iterator over a 3×3 grid, initialized with cell `(1, 0)`
(whose own index, 1, passes the buggy bounds test). -/
def nbEx : Neighborhood :=
  (Neighborhood.new VON_NEUMAN_NEIGHBORHOOD (3, 3)).init_with_cell (1, 0)

/-! ## Basic facts about the machine-integer model -/

theorem wrap32_eq_self {z : Int} (h1 : -2 ^ 31 ≤ z) (h2 : z < 2 ^ 31) :
    wrap32 z = z := by
  unfold wrap32
  omega

theorem usizeOfI32_eq_toNat {z : Int} (h1 : 0 ≤ z) (h2 : z < 2 ^ 64) :
    usizeOfI32 z = z.toNat := by
  unfold usizeOfI32
  omega

theorem i32OfUsize_eq_self {n : Nat} (h : n < 2 ^ 31) : i32OfUsize n = n := by
  unfold i32OfUsize
  exact wrap32_eq_self (by omega) (by exact_mod_cast h)

theorem coord_to_idx_eq {width x y : Int} (h0 : 0 ≤ y * width + x)
    (h1 : y * width + x < 2 ^ 31) :
    coord_to_idx width x y = (y * width + x).toNat := by
  unfold coord_to_idx
  rw [wrap32_eq_self (by omega) h1]
  exact usizeOfI32_eq_toNat h0 (by omega)

/-- On in-range coordinates of a grid with `0 < w` and `w * h < 2^31`,
`coord_to_idx` is injective. -/
theorem coord_to_idx_inj {w : Int} (hw : 0 < w) {x1 y1 x2 y2 : Int}
    (hx1 : 0 ≤ x1) (hxw1 : x1 < w) (hy1 : 0 ≤ y1)
    (hx2 : 0 ≤ x2) (hxw2 : x2 < w) (hy2 : 0 ≤ y2)
    (hb1 : y1 * w + x1 < 2 ^ 31) (hb2 : y2 * w + x2 < 2 ^ 31)
    (hk : coord_to_idx w x1 y1 = coord_to_idx w x2 y2) : x1 = x2 ∧ y1 = y2 := by
  have n1 : 0 ≤ y1 * w + x1 := by positivity
  have n2 : 0 ≤ y2 * w + x2 := by positivity
  rw [coord_to_idx_eq n1 hb1, coord_to_idx_eq n2 hb2] at hk
  have e : y1 * w + x1 = y2 * w + x2 := by omega
  have e' : x1 + w * y1 = x2 + w * y2 := by linear_combination e
  have hm := congrArg (fun z => z % w) e'
  simp only [Int.add_mul_emod_self_left] at hm
  rw [Int.emod_eq_of_lt hx1 hxw1, Int.emod_eq_of_lt hx2 hxw2] at hm
  subst hm
  have hyw : y1 * w = y2 * w := by omega
  exact ⟨rfl, mul_right_cancel₀ (ne_of_gt hw) hyw⟩

/-! ## Generic list lemmas -/

theorem length_filter_four {α : Type} (p : α → Bool) (a b c d : α) :
    (List.filter p [a, b, c, d]).length =
      (if p a then 1 else 0) + (if p b then 1 else 0) +
      (if p c then 1 else 0) + (if p d then 1 else 0) := by
  cases hpa : p a <;> cases hpb : p b <;> cases hpc : p c <;> cases hpd : p d <;>
    simp [List.filter_cons, hpa, hpb, hpc, hpd]

theorem getD_set_self {α : Type} (l : List α) (i : Nat) (v d : α) (h : i < l.length) :
    (l.set i v).getD i d = v := by
  simp [List.getD_eq_getElem?_getD, List.getElem?_set_self', List.getElem?_eq_getElem h]

theorem getD_set_ne {α : Type} (l : List α) (i j : Nat) (v d : α) (h : i ≠ j) :
    (l.set i v).getD j d = l.getD j d := by
  simp [List.getD_eq_getElem?_getD, List.getElem?_set_ne h]

theorem foldl_range_const {α : Type} (f : α → α) : ∀ (k : Nat) (a : α),
    (List.range k).foldl (fun s _ => f s) a = f^[k] a := by
  intro k
  induction k with
  | zero => intro a; rfl
  | succ m ih =>
    intro a
    rw [List.range_succ, List.foldl_append, ih, List.foldl_cons, List.foldl_nil,
      Function.iterate_succ_apply']

theorem foldl_flatMap {α β γ : Type} (L : List α) (g : α → List β) (f : γ → β → γ)
    (a : γ) :
    (L.flatMap g).foldl f a = L.foldl (fun acc x => (g x).foldl f acc) a := by
  induction L generalizing a with
  | nil => rfl
  | cons x L ih => simp [List.flatMap_cons, List.foldl_append, ih]

theorem pairwise_key_ne_of_nodup {α : Type} (key : α → Nat) :
    ∀ L : List α, L.Nodup → (∀ p ∈ L, ∀ q ∈ L, key p = key q → p = q) →
      L.Pairwise (fun p q => key p ≠ key q) := by
  intro L
  induction L with
  | nil => intro _ _; exact List.Pairwise.nil
  | cons a L ih =>
    intro hnd hinj
    rw [List.nodup_cons] at hnd
    rw [List.pairwise_cons]
    refine ⟨fun b hb hk => ?_, ?_⟩
    · exact hnd.1 (hinj a (by simp) b (by simp [hb]) hk ▸ hb)
    · exact ih hnd.2 (fun p hp q hq => hinj p (by simp [hp]) q (by simp [hq]))

/-- Folding point-updates whose keys all avoid `i` leaves position `i`
unchanged. -/
theorem foldl_set_getD_of_forall_ne {α C : Type} [Inhabited C] (key : α → Nat)
    (upd : α → C → C) :
    ∀ (L : List α) (b : List C) (i : Nat), (∀ p ∈ L, key p ≠ i) →
      (L.foldl (fun b2 p => b2.set (key p) (upd p (b2.getD (key p) default))) b).getD i
          default
        = b.getD i default := by
  intro L
  induction L with
  | nil => intro b i _; rfl
  | cons p L ih =>
    intro b i hni
    rw [List.foldl_cons, ih _ _ (fun q hq => hni q (by simp [hq]))]
    exact getD_set_ne _ _ _ _ _ (hni p (by simp))

/-- Folding point-updates with pairwise-distinct, in-bounds keys: the final
value at the key of any visited element is its update applied to the
*initial* buffer content at that key. -/
theorem foldl_set_getD_of_mem {α C : Type} [Inhabited C] (key : α → Nat)
    (upd : α → C → C) :
    ∀ (L : List α) (b : List C), L.Pairwise (fun p q => key p ≠ key q) →
      (∀ p ∈ L, key p < b.length) → ∀ q ∈ L,
      (L.foldl (fun b2 p => b2.set (key p) (upd p (b2.getD (key p) default))) b).getD
          (key q) default
        = upd q (b.getD (key q) default) := by
  intro L
  induction L with
  | nil => intro b _ _ q hq; exact absurd hq (List.not_mem_nil q)
  | cons p L ih =>
    intro b hpw hlt q hq
    rw [List.pairwise_cons] at hpw
    rw [List.foldl_cons]
    rcases List.mem_cons.mp hq with hqp | hqL
    · subst hqp
      rw [foldl_set_getD_of_forall_ne key upd L _ _ (fun r hr => (hpw.1 r hr).symm)]
      exact getD_set_self _ _ _ _ (hlt q (by simp))
    · rw [ih _ hpw.2 (fun r hr => by rw [List.length_set]; exact hlt r (by simp [hr])) q hqL]
      congr 1
      exact getD_set_ne _ _ _ _ _ (hpw.1 q hqL)

/-! ## The visited-coordinate list -/

theorem mem_gridCoords {w h : Int} {p : Int × Int} :
    p ∈ gridCoords w h ↔ 0 ≤ p.1 ∧ p.1 < w ∧ 0 ≤ p.2 ∧ p.2 < h := by
  obtain ⟨x, y⟩ := p
  simp only [gridCoords, List.mem_flatMap, List.mem_map, List.mem_range, Prod.mk.injEq]
  constructor
  · rintro ⟨yn, hyn, xn, hxn, hx, hy⟩
    subst hx; subst hy
    exact ⟨by omega, by omega, by omega, by omega⟩
  · rintro ⟨hx0, hxw, hy0, hyh⟩
    exact ⟨y.toNat, by omega, x.toNat, by omega, by omega, by omega⟩

theorem gridCoords_nodup (w h : Int) : (gridCoords w h).Nodup := by
  unfold gridCoords
  rw [List.nodup_flatMap]
  constructor
  · intro yn _
    exact List.Nodup.map (fun a b hab => by simpa using hab) (List.nodup_range _)
  · apply List.Pairwise.imp ?_ (List.pairwise_lt_range h.toNat)
    intro y1 y2 hlt a ha hb
    simp only [List.mem_map, List.mem_range] at ha hb
    obtain ⟨x1, _, he1⟩ := ha
    obtain ⟨x2, _, he2⟩ := hb
    rw [← he1] at he2
    have hy12 : (y1 : Int) = (y2 : Int) := congrArg Prod.snd he2.symm
    omega


/-! ## Unfolding `step` to a flat fold over the visited coordinates -/

theorem step_fold_eq {C S : Type} [Inhabited C] (sim : Simulation C S) :
    (List.range sim.height.toNat).foldl
      (fun acc (yn : Nat) => (List.range sim.width.toNat).foldl
        (fun acc2 (xn : Nat) => sim.stepCell acc2 (xn : Int) (yn : Int)) acc)
      (sim.buffer, sim.transS)
    = (gridCoords sim.width sim.height).foldl
        (fun acc p => sim.stepCell acc p.1 p.2) (sim.buffer, sim.transS) := by
  unfold gridCoords
  rw [foldl_flatMap]
  simp [List.foldl_map]

theorem step_state_eq {C S : Type} [Inhabited C] (sim : Simulation C S) :
    sim.step.state = ((gridCoords sim.width sim.height).foldl
      (fun acc p => sim.stepCell acc p.1 p.2) (sim.buffer, sim.transS)).1 := by
  have h : sim.step.state = ((List.range sim.height.toNat).foldl
      (fun acc (yn : Nat) => (List.range sim.width.toNat).foldl
        (fun acc2 (xn : Nat) => sim.stepCell acc2 (xn : Int) (yn : Int)) acc)
      (sim.buffer, sim.transS)).1 := rfl
  rw [h, step_fold_eq]

theorem step_buffer_eq {C S : Type} [Inhabited C] (sim : Simulation C S) :
    sim.step.buffer = sim.state := rfl

theorem foldl_stepCell_fst_length {C S : Type} [Inhabited C] (sim : Simulation C S) :
    ∀ (L : List (Int × Int)) (acc : List C × S),
      ((L.foldl (fun acc2 p => sim.stepCell acc2 p.1 p.2) acc).1).length = acc.1.length := by
  intro L
  induction L with
  | nil => intro acc; rfl
  | cons p L ih =>
    intro acc
    rw [List.foldl_cons, ih]
    simp [Simulation.stepCell]

theorem foldl_stepCell_pure {C S : Type} [Inhabited C] (sim : Simulation C S)
    (f : C → List C → C) (htr : sim.transition = fun s c ns => (f c ns, s)) :
    ∀ (L : List (Int × Int)) (b : List C) (s : S),
      L.foldl (fun acc p => sim.stepCell acc p.1 p.2) (b, s)
        = (L.foldl (fun b2 p => b2.set (coord_to_idx sim.width p.1 p.2)
            (f (b2.getD (coord_to_idx sim.width p.1 p.2) default)
              (sim.neighborCells p))) b, s) := by
  intro L
  induction L with
  | nil => intro b s; rfl
  | cons p L ih =>
    intro b s
    rw [List.foldl_cons, List.foldl_cons]
    have hcell : sim.stepCell (b, s) p.1 p.2
        = (b.set (coord_to_idx sim.width p.1 p.2)
            (f (b.getD (coord_to_idx sim.width p.1 p.2) default) (sim.neighborCells p)), s) := by
      simp [Simulation.stepCell, htr]
    rw [hcell, ih]

/-- The workhorse: with a state-preserving transition rule, after one `step`
the cell at in-range position `(x, y)` equals the rule applied to the old
write-buffer content at that position and to the neighbors sampled from the
pre-step `state` buffer. -/
theorem step_cells_getD {C S : Type} [Inhabited C] (sim : Simulation C S)
    (f : C → List C → C) (htr : sim.transition = fun s c ns => (f c ns, s))
    (hw : 0 < sim.width) (hwh : sim.width * sim.height < 2 ^ 31)
    (hlen : sim.buffer.length = (sim.width * sim.height).toNat)
    (x y : Int) (hx0 : 0 ≤ x) (hxw : x < sim.width) (hy0 : 0 ≤ y) (hyh : y < sim.height) :
    sim.step.cells.getD (coord_to_idx sim.width x y) default
      = f (sim.buffer.getD (coord_to_idx sim.width x y) default)
          (sim.neighborCells (x, y)) := by
  have hq : (x, y) ∈ gridCoords sim.width sim.height := by
    rw [mem_gridCoords]; exact ⟨hx0, hxw, hy0, hyh⟩
  have hbound : ∀ p ∈ gridCoords sim.width sim.height,
      0 ≤ p.2 * sim.width + p.1 ∧ p.2 * sim.width + p.1 < sim.width * sim.height := by
    intro p hp
    rw [mem_gridCoords] at hp
    obtain ⟨h1, h2, h3, h4⟩ := hp
    constructor
    · positivity
    · nlinarith
  have hwh31 : ∀ p ∈ gridCoords sim.width sim.height,
      p.2 * sim.width + p.1 < 2 ^ 31 := by
    intro p hp
    exact lt_trans (hbound p hp).2 hwh
  have hpw : (gridCoords sim.width sim.height).Pairwise
      (fun p q => coord_to_idx sim.width p.1 p.2 ≠ coord_to_idx sim.width q.1 q.2) := by
    apply pairwise_key_ne_of_nodup _ _ (gridCoords_nodup _ _)
    intro p hp q hqq hk
    rw [mem_gridCoords] at hp hqq
    obtain ⟨hp1, hp2, hp3, hp4⟩ := hp
    obtain ⟨hq1, hq2, hq3, hq4⟩ := hqq
    have hco := coord_to_idx_inj hw hp1 hp2 hp3 hq1 hq2 hq3
      (hwh31 p (by rw [mem_gridCoords]; exact ⟨hp1, hp2, hp3, hp4⟩))
      (hwh31 q (by rw [mem_gridCoords]; exact ⟨hq1, hq2, hq3, hq4⟩)) hk
    exact Prod.ext hco.1 hco.2
  have hlt : ∀ p ∈ gridCoords sim.width sim.height,
      coord_to_idx sim.width p.1 p.2 < sim.buffer.length := by
    intro p hp
    have hb := hbound p hp
    rw [coord_to_idx_eq hb.1 (hwh31 p hp), hlen]
    omega
  have hmain := foldl_set_getD_of_mem (fun p : Int × Int => coord_to_idx sim.width p.1 p.2)
    (fun p c => f c (sim.neighborCells p)) (gridCoords sim.width sim.height)
    sim.buffer hpw hlt (x, y) hq
  rw [Simulation.cells, step_state_eq,
    foldl_stepCell_pure sim f htr (gridCoords sim.width sim.height) sim.buffer sim.transS]
  simpa using hmain


/-! ## The claims -/

/-- C1: with a transition rule that writes a verbatim copy of its designated
(first-listed) neighbor into the target cell, after one `step` every cell of
`cells()` equals the value that neighbor held in the current-state buffer
before the step began; the right-hand side reads the *pre-step* `state`
buffer, so no new value depends on values written earlier in the same step. -/
theorem c1_transition_reads_prestep_snapshot {C S : Type} [Inhabited C]
    (sim : Simulation C S)
    (htr : sim.transition = fun s c ns => (ns.headD c, s))
    (hw : 0 < sim.width) (hwh : sim.width * sim.height < 2 ^ 31)
    (hlen : sim.buffer.length = (sim.width * sim.height).toNat)
    (x y i j : Int) (hx0 : 0 ≤ x) (hxw : x < sim.width) (hy0 : 0 ≤ y)
    (hyh : y < sim.height) (rest : List (Int × Int))
    (hnb : sim.neighborhood x y sim.width sim.height = (i, j) :: rest)
    (hi0 : 0 ≤ i) (hiw : i < sim.width) (hj0 : 0 ≤ j) (hjh : j < sim.height) :
    sim.step.cells.getD (coord_to_idx sim.width x y) default
      = sim.state.getD (coord_to_idx sim.width i j) default := by
  rw [step_cells_getD sim (fun c ns => ns.headD c) htr hw hwh hlen x y hx0 hxw hy0 hyh]
  rw [Simulation.neighborCells]
  dsimp only
  rw [hnb]
  simp

/-- C1, instantiated: in the 2×2 copy-first-neighbor simulation `simCopy`
(where every cell's designated neighbor is `(0, 0)`), after one step the
cell at `(1, 1)` holds the pre-step value of cell `(0, 0)`. -/
theorem c1_transition_reads_prestep_snapshot_witness :
    simCopy.step.cells.getD (coord_to_idx simCopy.width 1 1) default
      = simCopy.state.getD (coord_to_idx simCopy.width 0 0) default :=
  c1_transition_reads_prestep_snapshot simCopy rfl (by decide) (by decide) (by decide)
    1 1 0 0 (by decide) (by decide) (by decide) (by decide) [] rfl
    (by decide) (by decide) (by decide) (by decide)

/-- C2 (counterexample): the claim quantifies over every index representable
in the machine integer types (`usize`).  At `width = 1`, `index = 2^31`,
`idx_to_coord` truncates `y = 2^31` to the `i32` value `-2^31`, and
`coord_to_idx` sign-extends it to `2^64 - 2^31 ≠ 2^31`: the roundtrip
fails, with no panic involved (only `as` casts, which never abort). -/
theorem c2_roundtrip_counterexample :
    coord_to_idx 1 (idx_to_coord 1 (2 ^ 31)).1 (idx_to_coord 1 (2 ^ 31)).2 ≠ 2 ^ 31 := by
  decide

/-- C2 (amended): the roundtrips hold on the ranges where no `i32`/`usize`
conversion truncates: `1 ≤ width < 2^31` and `index < 2^31` for the
index-first roundtrip, and `y*width + x < 2^31` for the coordinate-first
roundtrip. -/
theorem c2_roundtrip_amended :
    (∀ w idx : Nat, 1 ≤ w → w < 2 ^ 31 → idx < 2 ^ 31 →
      coord_to_idx (w : Int) (idx_to_coord w idx).1 (idx_to_coord w idx).2 = idx) ∧
    (∀ w h x y : Int, 0 ≤ x → x < w → 0 ≤ y → y < h → y * w + x < 2 ^ 31 →
      idx_to_coord w.toNat (coord_to_idx w x y) = (x, y)) := by
  constructor
  · intro w idx hw hw2 hidx
    unfold idx_to_coord
    have hx : idx % w < 2 ^ 31 := lt_of_lt_of_le (Nat.mod_lt idx (by omega)) (by omega)
    have hy : idx / w < 2 ^ 31 := lt_of_le_of_lt (Nat.div_le_self idx w) hidx
    simp only [i32OfUsize_eq_self hx, i32OfUsize_eq_self hy]
    have hsum : ((idx / w : Nat) : Int) * (w : Int) + ((idx % w : Nat) : Int)
        = (idx : Int) := by
      exact_mod_cast Nat.div_add_mod' idx w
    rw [coord_to_idx_eq (by rw [hsum]; omega) (by rw [hsum]; exact_mod_cast hidx)]
    rw [hsum]
    simp
  · intro w h x y hx0 hxw hy0 hyh hbound
    have hw : 0 < w := lt_of_le_of_lt hx0 hxw
    have hyw : 0 ≤ y * w := mul_nonneg hy0 (le_of_lt hw)
    have hx31 : x < 2 ^ 31 := by omega
    have hy31 : y < 2 ^ 31 := by nlinarith
    rw [coord_to_idx_eq (by omega) hbound]
    have ha : (x.toNat : Int) = x := Int.toNat_of_nonneg hx0
    have hb : (y.toNat : Int) = y := Int.toNat_of_nonneg hy0
    have hc : (w.toNat : Int) = w := Int.toNat_of_nonneg (le_of_lt hw)
    have hcast : (y * w + x).toNat = x.toNat + y.toNat * w.toNat := by
      have hz : y * w + x = ((x.toNat + y.toNat * w.toNat : Nat) : Int) := by
        push_cast [ha, hb, hc]; ring
      rw [hz, Int.toNat_natCast]
    rw [hcast]
    have haw : x.toNat < w.toNat := by omega
    have hww : 0 < w.toNat := by omega
    unfold idx_to_coord
    rw [Nat.add_mul_mod_self_right, Nat.add_mul_div_right _ _ hww,
      Nat.mod_eq_of_lt haw, Nat.div_eq_of_lt haw]
    simp only [Nat.zero_add]
    rw [i32OfUsize_eq_self (by omega), i32OfUsize_eq_self (by omega), ha, hb]

/-- C2 amended, instantiated: `width = 3`, `index = 7` roundtrips to `7`, and
`(x, y) = (2, 1)` in a `3 × 4` grid roundtrips to `(2, 1)`. -/
theorem c2_roundtrip_amended_witness :
    coord_to_idx (3 : Int) (idx_to_coord 3 7).1 (idx_to_coord 3 7).2 = 7 ∧
    idx_to_coord (3 : Int).toNat (coord_to_idx 3 2 1) = (2, 1) :=
  ⟨c2_roundtrip_amended.1 3 7 (by decide) (by decide) (by decide),
   c2_roundtrip_amended.2 3 4 2 1 (by decide) (by decide) (by decide) (by decide)
     (by decide)⟩

/-- C3: for `width, height ≥ 2` (representable as `i32`) and any in-range
`(x, y)`, every coordinate returned by `von_neuman` lies in
`[0,width) × [0,height)`, and the number of neighbors is 4 for interior
cells, 3 for edge (non-corner) cells, and 2 for corner cells. -/
theorem c3_von_neuman_neighbor_counts (w h x y : Int) (hw : 2 ≤ w) (hwm : w < 2 ^ 31)
    (hh : 2 ≤ h) (hhm : h < 2 ^ 31) (hx0 : 0 ≤ x) (hxw : x < w) (hy0 : 0 ≤ y)
    (hyh : y < h) :
    (∀ p ∈ von_neuman x y w h, 0 ≤ p.1 ∧ p.1 < w ∧ 0 ≤ p.2 ∧ p.2 < h) ∧
    ((0 < x ∧ x < w - 1 ∧ 0 < y ∧ y < h - 1) → (von_neuman x y w h).length = 4) ∧
    (((x = 0 ∨ x = w - 1 ∨ y = 0 ∨ y = h - 1) ∧
        ¬((x = 0 ∨ x = w - 1) ∧ (y = 0 ∨ y = h - 1))) →
      (von_neuman x y w h).length = 3) ∧
    (((x = 0 ∨ x = w - 1) ∧ (y = 0 ∨ y = h - 1)) → (von_neuman x y w h).length = 2) := by
  refine ⟨?_, ?_⟩
  · intro p hp
    simp only [von_neuman, List.mem_filter, Bool.and_eq_true, decide_eq_true_eq] at hp
    tauto
  have e1 : wrap32 (x + -1) = x + -1 := wrap32_eq_self (by omega) (by omega)
  have e2 : wrap32 (x + 0) = x + 0 := wrap32_eq_self (by omega) (by omega)
  have e3 : wrap32 (x + 1) = x + 1 := wrap32_eq_self (by omega) (by omega)
  have f1 : wrap32 (y + -1) = y + -1 := wrap32_eq_self (by omega) (by omega)
  have f2 : wrap32 (y + 0) = y + 0 := wrap32_eq_self (by omega) (by omega)
  have f3 : wrap32 (y + 1) = y + 1 := wrap32_eq_self (by omega) (by omega)
  have hvn : von_neuman x y w h =
      List.filter (fun ab => decide (0 ≤ ab.1) && decide (ab.1 < w) &&
                   decide (0 ≤ ab.2) && decide (ab.2 < h))
        [(x + -1, y + 0), (x + 0, y + -1), (x + 1, y + 0), (x + 0, y + 1)] := by
    simp only [von_neuman, VON_NEUMAN_NEIGHBORHOOD, List.map_cons, List.map_nil,
      e1, e2, e3, f1, f2, f3]
  rw [hvn]
  simp only [length_filter_four, Bool.and_eq_true, decide_eq_true_eq]
  refine ⟨fun hc => ?_, fun hc => ?_, fun hc => ?_⟩ <;>
    · split_ifs <;> omega

/-- C3, instantiated on a `3 × 3` grid at the interior cell `(1, 1)`, which
has exactly 4 neighbors. -/
theorem c3_von_neuman_neighbor_counts_witness : (von_neuman 1 1 3 3).length = 4 :=
  (c3_von_neuman_neighbor_counts 3 3 1 1 (by decide) (by decide) (by decide) (by decide)
    (by decide) (by decide) (by decide) (by decide)).2.1
    ⟨by decide, by decide, by decide, by decide⟩

/-- C4: in `Neighborhood::next`, the `idx < 0` half of the bounds condition
is false for every state and every index, because `idx` has the unsigned
type `usize` (`Nat`); the test can therefore reject only via the comparison
with `ca_bounds.0` — the grid *width*, not `width * height`. -/
theorem c4_idx_lt_zero_vacuous (nb : Neighborhood) (idx : Nat) :
    decide (idx < 0) = false ∧
    nb.boundsTest idx = decide ((idx : Int) > nb.ca_bounds.1) := by
  refine ⟨by simp, ?_⟩
  unfold Neighborhood.boundsTest
  simp

/-- C5: for every `n ≥ 0` and every simulation state, `step_until n` is
exactly `n` sequential applications of `step`. -/
theorem c5_step_until_iterates_step {C S : Type} [Inhabited C] (sim : Simulation C S)
    (n : Int) (hn : 0 ≤ n) :
    sim.step_until n = Simulation.step^[n.toNat] sim := by
  simp only [Simulation.step_until]
  exact foldl_range_const Simulation.step n.toNat sim

/-- C5, instantiated on the 2×2 simulation `simEx` with `n = 2`. -/
theorem c5_step_until_iterates_step_witness :
    simEx.step_until 2 = Simulation.step^[(2 : Int).toNat] simEx :=
  c5_step_until_iterates_step simEx 2 (by decide)

/-- C6: after `Simulation::new(width, height, ...)` both internal buffers
have length exactly `width * height`, and both `step` and `step_until`
preserve both lengths. -/
theorem c6_buffer_length_invariant {C S : Type} [Inhabited C] (w h : Int)
    (tr : S → C → List C → C × S) (s0 : S)
    (nf : Int → Int → Int → Int → List (Int × Int))
    (hwh0 : 0 ≤ w * h) (hwh : w * h < 2 ^ 31) :
    ((Simulation.new (C := C) (S := S) w h tr s0 nf).state.length = (w * h).toNat ∧
     (Simulation.new (C := C) (S := S) w h tr s0 nf).buffer.length = (w * h).toNat) ∧
    (∀ sim : Simulation C S,
      sim.state.length = (w * h).toNat → sim.buffer.length = (w * h).toNat →
      sim.step.state.length = (w * h).toNat ∧ sim.step.buffer.length = (w * h).toNat) ∧
    (∀ (sim : Simulation C S) (n : Int),
      sim.state.length = (w * h).toNat → sim.buffer.length = (w * h).toNat →
      (sim.step_until n).state.length = (w * h).toNat ∧
      (sim.step_until n).buffer.length = (w * h).toNat) := by
  have hcap : usizeOfI32 (wrap32 (w * h)) = (w * h).toNat := by
    rw [wrap32_eq_self (by omega) hwh]
    exact usizeOfI32_eq_toNat hwh0 (by omega)
  have hstep : ∀ sim : Simulation C S,
      sim.state.length = (w * h).toNat → sim.buffer.length = (w * h).toNat →
      sim.step.state.length = (w * h).toNat ∧ sim.step.buffer.length = (w * h).toNat := by
    intro sim hs hb
    refine ⟨?_, ?_⟩
    · rw [step_state_eq, foldl_stepCell_fst_length]
      exact hb
    · rw [step_buffer_eq]
      exact hs
  refine ⟨⟨?_, ?_⟩, hstep, ?_⟩
  · simp [Simulation.new, hcap]
  · simp [Simulation.new, hcap]
  · intro sim n hs hb
    simp only [Simulation.step_until]
    rw [foldl_range_const]
    have key : ∀ (k : Nat) (sm : Simulation C S),
        sm.state.length = (w * h).toNat → sm.buffer.length = (w * h).toNat →
        (Simulation.step^[k] sm).state.length = (w * h).toNat ∧
        (Simulation.step^[k] sm).buffer.length = (w * h).toNat := by
      intro k
      induction k with
      | zero => intro sm hs2 hb2; exact ⟨hs2, hb2⟩
      | succ m ih =>
        intro sm hs2 hb2
        rw [Function.iterate_succ_apply]
        exact ih _ (hstep sm hs2 hb2).1 (hstep sm hs2 hb2).2
    exact key n.toNat sim hs hb

/-- C6, instantiated at `w = h = 2` with the simulation `simEx`. -/
theorem c6_buffer_length_invariant_witness :
    ((Simulation.new (C := Int) (S := Unit) 2 2 (fun s c _ns => (c, s)) ()
        von_neuman).state.length = ((2 : Int) * 2).toNat ∧
     (Simulation.new (C := Int) (S := Unit) 2 2 (fun s c _ns => (c, s)) ()
        von_neuman).buffer.length = ((2 : Int) * 2).toNat) ∧
    (simEx.step.state.length = ((2 : Int) * 2).toNat ∧
     simEx.step.buffer.length = ((2 : Int) * 2).toNat) ∧
    ((simEx.step_until 3).state.length = ((2 : Int) * 2).toNat ∧
     (simEx.step_until 3).buffer.length = ((2 : Int) * 2).toNat) :=
  ⟨(c6_buffer_length_invariant 2 2 (fun s c _ns => (c, s)) () von_neuman
      (by decide) (by decide)).1,
   (c6_buffer_length_invariant (C := Int) (S := Unit) 2 2 (fun s c _ns => (c, s)) ()
      von_neuman (by decide) (by decide)).2.1 simEx (by decide) (by decide),
   (c6_buffer_length_invariant (C := Int) (S := Unit) 2 2 (fun s c _ns => (c, s)) ()
      von_neuman (by decide) (by decide)).2.2 simEx 3 (by decide) (by decide)⟩

/-- C7: `from_cells` accepts any initial cell sequence — it is a total
function with no length check relating `cells` to `width * height` — and
seeds both the state buffer and the write buffer with that sequence. -/
theorem c7_from_cells_unchecked {C S : Type} [Inhabited C] (width height : Int)
    (trans_fn : S → C → List C → C × S) (s0 : S)
    (neighbor_fn : Int → Int → Int → Int → List (Int × Int)) (cells : List C) :
    (Simulation.from_cells width height trans_fn s0 neighbor_fn cells).state = cells ∧
    (Simulation.from_cells width height trans_fn s0 neighbor_fn cells).buffer = cells :=
  ⟨rfl, rfl⟩

/-- C8: on the 3×3 grid whose cells store their own coordinates, one `step`
with the identity transition and the four-connected neighborhood leaves
`cells()` equal to the initial sequence. -/
theorem c8_identity_step_preserves_3x3 : sim3x3.step.cells = cellsOwnCoords3 := by
  decide

/-- C9: `von_neuman(0, 0, 1, 1)` is empty, so during a step of a 1×1
simulation over the built-in four-connected neighborhood the transition
rule receives an empty neighbor slice. -/
theorem c9_one_by_one_empty_neighborhood :
    von_neuman 0 0 1 1 = [] ∧
    ∀ (C S : Type) [Inhabited C] (sim : Simulation C S),
      sim.width = 1 → sim.height = 1 → sim.neighborhood = von_neuman →
      sim.buffer.length = 1 →
      sim.step.cells.getD 0 default
        = (sim.transition sim.transS (sim.buffer.getD 0 default) []).1 := by
  refine ⟨by decide, ?_⟩
  intro C S inst sim hw hh hnf hlen
  obtain ⟨w, h, s0, tr, nf, st, buf⟩ := sim
  dsimp only at hw hh hnf hlen ⊢
  subst hw; subst hh; subst hnf
  have hstep : (Simulation.mk (C := C) (S := S) 1 1 s0 tr von_neuman st buf).step.cells
      = buf.set 0 ((tr s0 (buf.getD 0 default) []).1) := rfl
  rw [hstep]
  exact getD_set_self _ _ _ _ (by omega)

/-- C9, instantiated on the 1×1 simulation `sim1x1`. -/
theorem c9_one_by_one_empty_neighborhood_witness :
    sim1x1.step.cells.getD 0 default
      = (sim1x1.transition sim1x1.transS (sim1x1.buffer.getD 0 default) []).1 :=
  c9_one_by_one_empty_neighborhood.2 Int Unit sim1x1 rfl rfl rfl (by decide)

/-- C10: `Neighborhood::next` never increments `count` and computes its
yielded index from the cell's own coordinates; for any iterator state with a
non-empty offset slice, an initialized cell, and a cell index passing the
bounds test (`count = 0` holds in every reachable state since only
`new`/`reset` write it), every call yields `Some` of the cell's own index
with the state unchanged, so iteration never terminates. -/
theorem c10_neighborhood_iterator_stuck (nb : Neighborhood) (cell : Int × Int)
    (hb : nb.bounds ≠ []) (hc0 : nb.count = 0) (hcell : nb.cell_coords = some cell)
    (hpass : nb.boundsTest (coord_to_idx nb.ca_bounds.1 cell.1 cell.2) = false) :
    nb.next = some (some (coord_to_idx nb.ca_bounds.1 cell.1 cell.2), nb) ∧
    ∀ k : Nat, nb.iter k = some nb := by
  have hne : nb.count ≠ nb.bounds.length := by
    rw [hc0]
    intro h0
    exact hb (List.length_eq_zero.mp h0.symm)
  have hnext : nb.next = some (some (coord_to_idx nb.ca_bounds.1 cell.1 cell.2), nb) := by
    unfold Neighborhood.next
    rw [if_neg hne, hcell]
    simp [hpass]
  refine ⟨hnext, ?_⟩
  intro k
  induction k with
  | zero => rfl
  | succ m ih =>
    rw [Neighborhood.iter, ih]
    simp [hnext]

/-- C10, instantiated on `nbEx` (cell `(1, 0)` of a 3×3 grid, own index 1):
`next` yields index 1 with unchanged state, still after 5 calls. -/
theorem c10_neighborhood_iterator_stuck_witness :
    nbEx.next = some (some (coord_to_idx nbEx.ca_bounds.1 1 0), nbEx) ∧
    nbEx.iter 5 = some nbEx :=
  ⟨(c10_neighborhood_iterator_stuck nbEx (1, 0) (by decide) rfl rfl (by decide)).1,
   (c10_neighborhood_iterator_stuck nbEx (1, 0) (by decide) rfl rfl (by decide)).2 5⟩

end GridMachine
